import Mathlib

/-!
Shallow embedding of `src/helpy.py` (a small command-line helper around
zlib, Adler-32, `ord`, `chr` and `hex`) together with theorems checking
the natural-language specification against it.

Python values are modelled as follows:
* a Python string is a list of Unicode code points (`PyStr`, each entry
  is expected to be below `0x110000`);
* a byte buffer is a list of naturals below 256 (`Bytes`);
* the file system is an association list from paths to byte contents;
* a run of `main` either terminates normally, returning the final file
  system and the list of printed Python values (exit code 0), or
  terminates abnormally with an uncaught Python exception (`PyErr`,
  non-zero exit code).
-/

namespace Helpy

/-- A Python string, as its list of Unicode code points. -/
abbrev PyStr := List Nat

/-- A Python byte buffer, as a list of byte values. -/
abbrev Bytes := List Nat

/-- Code points of a Lean string literal, used to write Python string
constants such as the command names of `helpy.py`. -/
def pyOfString (s : String) : PyStr := s.data.map Char.toNat

/-- True on the code points Python's `int` strips as whitespace
(the ASCII ones; Python additionally strips other Unicode spaces,
which this model does not cover). -/
def isPySpace (c : Nat) : Bool := c = 32 || c = 9 || c = 10 || c = 13 || c = 12 || c = 11

/-- True on the ASCII decimal digits (Python's `int` additionally
accepts non-ASCII Unicode decimal digits, which this model does not
cover). -/
def isDigit (c : Nat) : Bool := 48 ≤ c && c ≤ 57

/-- Strip leading and trailing whitespace, as Python's `int(str)` does
before parsing. -/
def pyStrip (s : PyStr) : PyStr :=
  ((s.dropWhile isPySpace).reverse.dropWhile isPySpace).reverse

/-- Digits of an integer literal after the first one, accumulating the
value: Python's `int` allows a single underscore between two digits. -/
def parseDigits : List Nat → Nat → Option Nat
  | [], acc => some acc
  | [c], acc => if isDigit c then some (acc * 10 + (c - 48)) else none
  | c :: d :: rest, acc =>
    if isDigit c then parseDigits (d :: rest) (acc * 10 + (c - 48))
    else if c = 95 then
      if isDigit d then parseDigits rest (acc * 10 + (d - 48)) else none
    else none

/-- The unsigned part of a Python integer literal: a digit followed by
digits with optional single underscores between them. -/
def pyIntBody : List Nat → Option Nat
  | [] => none
  | d :: ds => if isDigit d then parseDigits ds (d - 48) else none

/-- A stripped Python integer literal: optional sign, then the digits. -/
def pyIntSigned (t : List Nat) : Option Int :=
  match t with
  | [] => none
  | c :: rest =>
    if c = 45 then (pyIntBody rest).map (fun n => -(n : Int))
    else if c = 43 then (pyIntBody rest).map (fun n => (n : Int))
    else (pyIntBody (c :: rest)).map (fun n => (n : Int))

/-- Python's `int(str)` in base 10: strip whitespace, optional sign,
decimal digits. Returns `none` where Python raises `ValueError`
("invalid literal for int() with base 10"). -/
def pyInt (s : PyStr) : Option Int := pyIntSigned (pyStrip s)

/-- Decimal digits of a natural number, most significant first, as code
points, with an accumulator; the first argument is recursion fuel
(callers pass `n`, which bounds the number of divisions by 10). -/
def decDigitsAux : Nat → Nat → List Nat → List Nat
  | 0, n, acc => (48 + n) :: acc
  | fuel + 1, n, acc =>
    if n < 10 then (48 + n) :: acc
    else decDigitsAux fuel (n / 10) ((48 + n % 10) :: acc)

/-- Code points of the decimal representation of a natural number: what
Python's `print` writes for a non-negative `int`. -/
def natDecDigits (n : Nat) : List Nat := decDigitsAux n n []

/-- Code point of a single hexadecimal digit, lowercase, as produced by
Python's `hex`. -/
def hexDigitChar (n : Nat) : Nat := if n < 10 then 48 + n else 87 + n

/-- Hexadecimal digits of a natural number, most significant first, as
code points, with an accumulator; the first argument is recursion
fuel (callers pass `n`). -/
def hexDigitsAux : Nat → Nat → List Nat → List Nat
  | 0, n, acc => hexDigitChar n :: acc
  | fuel + 1, n, acc =>
    if n < 16 then hexDigitChar n :: acc
    else hexDigitsAux fuel (n / 16) (hexDigitChar (n % 16) :: acc)

/-- Code points of the lowercase hexadecimal representation of a
natural number (no prefix). -/
def natHexDigits (n : Nat) : List Nat := hexDigitsAux n n []

/-- Python's `hex(int)`: `0x` followed by lowercase hexadecimal digits,
with a single leading `-` for negative arguments (`hex(-255)` is
`-0xff`). -/
def pyHex (n : Int) : PyStr :=
  if n < 0 then pyOfString "-0x" ++ natHexDigits n.natAbs
  else pyOfString "0x" ++ natHexDigits n.natAbs

/-- Python's `chr(int)`: the one-character string of the code point, or
`none` where Python raises `ValueError` ("chr() arg not in
range(0x110000)"), in particular on every negative argument. -/
def pyChr (n : Int) : Option PyStr :=
  if 0 ≤ n ∧ n < 1114112 then some [n.toNat] else none

/-- Python's `str.encode("charmap")`: the `charmap` codec maps code
points 0–255 one-to-one to bytes and raises `UnicodeEncodeError` on any
code point above 255 (it resolves to the latin-1 codec). -/
def encodeCharmap (s : PyStr) : Option Bytes :=
  if s.all (fun c => c < 256) then some s else none

/-- Modelled from the spec: the Adler-32 checksum ("a checksum
algorithm combining a running sum and a running sum-of-sums modulo
65521, packed into a 32-bit value"); the zlib library implementing
`zlib.adler32` is not part of this repository. One step folds a byte
into the pair of running sums. -/
def adler32Step (ab : Nat × Nat) (byte : Nat) : Nat × Nat :=
  ((ab.1 + byte) % 65521, (ab.2 + (ab.1 + byte) % 65521) % 65521)

/-- Modelled from the spec: `zlib.adler32` over a byte buffer, starting
from the library-defined initial value 1 for the low sum and 0 for the
sum-of-sums. -/
def adler32 (data : Bytes) : Nat :=
  let ab := data.foldl adler32Step (1, 0)
  ab.2 * 65536 + ab.1

/-- Modelled from the spec: the Adler-32 trailer of a zlib stream, the
checksum of the uncompressed data as 4 big-endian bytes (RFC 1950). -/
def adler32BytesBE (data : Bytes) : Bytes :=
  [adler32 data / 16777216 % 256, adler32 data / 65536 % 256,
   adler32 data / 256 % 256, adler32 data % 256]

/-- Modelled from the spec: the DEFLATE-compressed payload of the zlib
stream produced by `zlib.compress`, which is not part of this
repository. The model uses DEFLATE stored (uncompressed) blocks at
byte granularity: each block is a final-block flag byte, the 16-bit
little-endian block length, its one's complement, and the raw block
data; blocks carry at most 65535 bytes. -/
def deflateStoredAux : Nat → Bytes → Bytes
  | 0, data =>
    1 :: data.length % 256 :: data.length / 256 ::
      (65535 - data.length) % 256 :: (65535 - data.length) / 256 :: data
  | fuel + 1, data =>
    if data.length ≤ 65535 then
      1 :: data.length % 256 :: data.length / 256 ::
        (65535 - data.length) % 256 :: (65535 - data.length) / 256 :: data
    else
      (0 :: 255 :: 255 :: 0 :: 0 :: data.take 65535) ++ deflateStoredAux fuel (data.drop 65535)

/-- Modelled from the spec: the DEFLATE payload of the whole stream;
`data.length` units of fuel are more than enough, as each non-final
block consumes 65535 bytes of data. -/
def deflateStored (data : Bytes) : Bytes := deflateStoredAux data.length data

/-- Modelled from the spec: the block-level DEFLATE decoder matching
`deflateStored`. Reads stored blocks until the final-block flag,
returning the decoded payload and the remaining input; the first
argument is recursion fuel (one unit per block suffices). -/
def inflateStored : Nat → Bytes → Option (Bytes × Bytes)
  | 0, _ => none
  | fuel + 1, b :: lenLo :: lenHi :: nLo :: nHi :: rest =>
    if nLo + 256 * nHi ≠ 65535 - (lenLo + 256 * lenHi) then none
    else if lenLo + 256 * lenHi ≤ rest.length then
      if b = 1 then some (rest.take (lenLo + 256 * lenHi), rest.drop (lenLo + 256 * lenHi))
      else if b = 0 then
        match inflateStored fuel (rest.drop (lenLo + 256 * lenHi)) with
        | some (payload, left) => some (rest.take (lenLo + 256 * lenHi) ++ payload, left)
        | none => none
      else none
    else none
  | _ + 1, _ => none

/-- Modelled from the spec: `zlib.compress` ("raw zlib-framed stream
(RFC 1950: 2-byte header, DEFLATE-compressed payload, 4-byte Adler-32
trailer)"), which is not part of this repository. The 2-byte header
0x78 0x9c is the standard one for the default compression level. -/
def zlibCompress (data : Bytes) : Bytes :=
  120 :: 156 :: (deflateStored data ++ adler32BytesBE data)

/-- Modelled from the spec: `zlib.decompress`, which is not part of this
repository. Checks the RFC 1950 header (compression method 8, valid
header checksum), inflates the payload and checks the Adler-32
trailer; returns `none` where the library raises `zlib.error`. -/
def zlibDecompress (raw : Bytes) : Option Bytes :=
  match raw with
  | cmf :: flg :: rest =>
    if cmf % 16 = 8 ∧ (cmf * 256 + flg) % 31 = 0 then
      match inflateStored rest.length rest with
      | some (payload, trailer) =>
        if trailer = adler32BytesBE payload then some payload else none
      | none => none
    else none
  | _ => none

/-- A Python value printed by `print` in `helpy.py`: a bytes object
(printed via its `repr`, e.g. `b'hello'`), a string (printed as its
characters) or an integer (printed in decimal). -/
inductive PyVal where
  | bytesObj (b : Bytes)
  | strVal (s : PyStr)
  | intVal (n : Int)
deriving DecidableEq

/-- An uncaught Python exception terminating a run of `main` with a
non-zero exit status. `valueErrorInt` is the `ValueError` raised by
`int` on an invalid literal (the spec's parse `InputError`);
`valueErrorChr` is the `ValueError` raised by `chr` on an argument
outside `range(0x110000)` (the spec's `RangeError`). -/
inductive PyErr where
  | indexError
  | fileNotFoundError
  | zlibError
  | unicodeEncodeError
  | valueErrorInt
  | valueErrorChr
deriving DecidableEq

/-- The file system visible to `helpy.py`: paths mapped to byte
contents. -/
abbrev FS := List (PyStr × Bytes)

/-- Reading a whole file, as `open(path, "rb").read()`: `none` means
Python raises `FileNotFoundError`. -/
def FS.read : FS → PyStr → Option Bytes
  | [], _ => none
  | (q, b) :: rest, p => if q = p then some b else FS.read rest p

/-- Writing a whole file in binary mode, as `open(path, "wb").write`:
creates the file or truncates an existing one. -/
def FS.write (fs : FS) (p : PyStr) (b : Bytes) : FS := (p, b) :: fs

/-- The outcome of a normal run of `main`: the final file system and
the values printed to standard output, in order. -/
structure RunResult where
  fs : FS
  stdout : List PyVal
deriving DecidableEq

/-- The `decompress` branch of `main`: read the file named by
`args[2]`, decompress, print the resulting bytes object. -/
def runDecompress (args : List PyStr) (fs : FS) : Except PyErr RunResult :=
  match args[2]? with
  | none => .error .indexError
  | some p =>
    match FS.read fs p with
    | none => .error .fileNotFoundError
    | some content =>
      match zlibDecompress content with
      | none => .error .zlibError
      | some inflated => .ok ⟨fs, [.bytesObj inflated]⟩

/-- The `compress` branch of `main`: read the file named by `args[2]`,
compress, and either write the result to the file named by `args[3]`
(when `len(args) > 3`) or print it as a bytes object. -/
def runCompress (args : List PyStr) (fs : FS) : Except PyErr RunResult :=
  match args[2]? with
  | none => .error .indexError
  | some p =>
    match FS.read fs p with
    | none => .error .fileNotFoundError
    | some content =>
      match args[3]? with
      | some outPath => .ok ⟨FS.write fs outPath (zlibCompress content), []⟩
      | none => .ok ⟨fs, [.bytesObj (zlibCompress content)]⟩

/-- The `adler32` branch of `main`:
`print(zlib.adler32(args[2].encode(encoding = "charmap")))`. -/
def runAdler32 (args : List PyStr) (fs : FS) : Except PyErr RunResult :=
  match args[2]? with
  | none => .error .indexError
  | some s =>
    match encodeCharmap s with
    | none => .error .unicodeEncodeError
    | some bytes => .ok ⟨fs, [.intVal (adler32 bytes)]⟩

/-- The `ord` branch of `main`: `print(ord(args[2][0]))`; indexing an
empty string raises `IndexError`. -/
def runOrd (args : List PyStr) (fs : FS) : Except PyErr RunResult :=
  match args[2]? with
  | none => .error .indexError
  | some s =>
    match s with
    | [] => .error .indexError
    | c :: _ => .ok ⟨fs, [.intVal (c : Int)]⟩

/-- The `chr` branch of `main`: `print(chr(int(args[2])))`. -/
def runChr (args : List PyStr) (fs : FS) : Except PyErr RunResult :=
  match args[2]? with
  | none => .error .indexError
  | some s =>
    match pyInt s with
    | none => .error .valueErrorInt
    | some n =>
      match pyChr n with
      | none => .error .valueErrorChr
      | some ch => .ok ⟨fs, [.strVal ch]⟩

/-- The `hex` branch of `main`: `print(hex(int(args[2])))`. -/
def runHex (args : List PyStr) (fs : FS) : Except PyErr RunResult :=
  match args[2]? with
  | none => .error .indexError
  | some s =>
    match pyInt s with
    | none => .error .valueErrorInt
    | some n => .ok ⟨fs, [.strVal (pyHex n)]⟩

/-- `main(args)` of `helpy.py`: branch on `args[1]` (raising
`IndexError` when absent) and run the selected command; an
unrecognized command falls through every branch and the run ends
normally with nothing printed. -/
def main (args : List PyStr) (fs : FS) : Except PyErr RunResult :=
  match args[1]? with
  | none => .error .indexError
  | some cmd =>
    if cmd = pyOfString "decompress" then runDecompress args fs
    else if cmd = pyOfString "compress" then runCompress args fs
    else if cmd = pyOfString "adler32" then runAdler32 args fs
    else if cmd = pyOfString "ord" then runOrd args fs
    else if cmd = pyOfString "chr" then runChr args fs
    else if cmd = pyOfString "hex" then runHex args fs
    else .ok ⟨fs, []⟩

/-! Dispatch lemmas: how `main` reduces once `args[1]` is known. -/

theorem main_some_cmd (args : List PyStr) (fs : FS) (cmd : PyStr)
    (h1 : args[1]? = some cmd) :
    main args fs =
      if cmd = pyOfString "decompress" then runDecompress args fs
      else if cmd = pyOfString "compress" then runCompress args fs
      else if cmd = pyOfString "adler32" then runAdler32 args fs
      else if cmd = pyOfString "ord" then runOrd args fs
      else if cmd = pyOfString "chr" then runChr args fs
      else if cmd = pyOfString "hex" then runHex args fs
      else .ok ⟨fs, []⟩ := by
  simp only [main, h1]

theorem main_cmd_decompress (a0 : PyStr) (rest : List PyStr) (fs : FS) :
    main (a0 :: pyOfString "decompress" :: rest) fs
      = runDecompress (a0 :: pyOfString "decompress" :: rest) fs := by
  rw [main_some_cmd _ _ (pyOfString "decompress") (by simp only [List.getElem?_cons_succ, List.getElem?_cons_zero]),
    if_pos rfl]

theorem main_cmd_compress (a0 : PyStr) (rest : List PyStr) (fs : FS) :
    main (a0 :: pyOfString "compress" :: rest) fs
      = runCompress (a0 :: pyOfString "compress" :: rest) fs := by
  rw [main_some_cmd _ _ (pyOfString "compress") (by simp only [List.getElem?_cons_succ, List.getElem?_cons_zero]),
    if_neg (by decide), if_pos rfl]

theorem main_cmd_adler32 (a0 : PyStr) (rest : List PyStr) (fs : FS) :
    main (a0 :: pyOfString "adler32" :: rest) fs
      = runAdler32 (a0 :: pyOfString "adler32" :: rest) fs := by
  rw [main_some_cmd _ _ (pyOfString "adler32") (by simp only [List.getElem?_cons_succ, List.getElem?_cons_zero]),
    if_neg (by decide), if_neg (by decide), if_pos rfl]

theorem main_cmd_ord (a0 : PyStr) (rest : List PyStr) (fs : FS) :
    main (a0 :: pyOfString "ord" :: rest) fs
      = runOrd (a0 :: pyOfString "ord" :: rest) fs := by
  rw [main_some_cmd _ _ (pyOfString "ord") (by simp only [List.getElem?_cons_succ, List.getElem?_cons_zero]),
    if_neg (by decide), if_neg (by decide), if_neg (by decide), if_pos rfl]

theorem main_cmd_chr (a0 : PyStr) (rest : List PyStr) (fs : FS) :
    main (a0 :: pyOfString "chr" :: rest) fs
      = runChr (a0 :: pyOfString "chr" :: rest) fs := by
  rw [main_some_cmd _ _ (pyOfString "chr") (by simp only [List.getElem?_cons_succ, List.getElem?_cons_zero]),
    if_neg (by decide), if_neg (by decide), if_neg (by decide), if_neg (by decide), if_pos rfl]

theorem main_cmd_hex (a0 : PyStr) (rest : List PyStr) (fs : FS) :
    main (a0 :: pyOfString "hex" :: rest) fs
      = runHex (a0 :: pyOfString "hex" :: rest) fs := by
  rw [main_some_cmd _ _ (pyOfString "hex") (by simp only [List.getElem?_cons_succ, List.getElem?_cons_zero]),
    if_neg (by decide), if_neg (by decide), if_neg (by decide), if_neg (by decide),
    if_neg (by decide), if_pos rfl]

/-- Claim C1 (amended): when `argument[1]` is present but is not one of
the six recognized commands, the program prints nothing, leaves the
file system unchanged, and terminates normally (exit code 0). (The
original claim also covered a missing `argument[1]`, but there the
program raises `IndexError`; see the counterexample.) -/
theorem unrecognized_command_silent_noop (args : List PyStr) (fs : FS) (cmd : PyStr)
    (h1 : args[1]? = some cmd)
    (h2 : cmd ≠ pyOfString "decompress") (h3 : cmd ≠ pyOfString "compress")
    (h4 : cmd ≠ pyOfString "adler32") (h5 : cmd ≠ pyOfString "ord")
    (h6 : cmd ≠ pyOfString "chr") (h7 : cmd ≠ pyOfString "hex") :
    main args fs = .ok ⟨fs, []⟩ := by
  rw [main_some_cmd _ _ _ h1, if_neg h2, if_neg h3, if_neg h4, if_neg h5, if_neg h6, if_neg h7]

/-- Witness for the amended C1: the unrecognized command `foo` is a
silent no-op. -/
theorem unrecognized_command_silent_noop_witness :
    main [pyOfString "helpy.py", pyOfString "foo"] [] = .ok ⟨[], []⟩ :=
  unrecognized_command_silent_noop _ _ (pyOfString "foo")
    (by simp only [List.getElem?_cons_succ, List.getElem?_cons_zero])
    (by decide) (by decide) (by decide) (by decide) (by decide) (by decide)

/-- Counterexample to C1 as stated: with the command value missing
(an argument list holding only the program name), the run does not
terminate normally doing nothing; `args[1]` raises `IndexError` and
the process exits abnormally. -/
theorem missing_command_index_error :
    main [pyOfString "helpy.py"] [] = .error .indexError := rfl

/-- Claim C10: for every recognized command, an argument list carrying
the command but no `argument[2]` fails with an out-of-range index
error rather than silently doing nothing. -/
theorem recognized_command_missing_operand (args : List PyStr) (fs : FS) (cmd : PyStr)
    (h1 : args[1]? = some cmd) (h2 : args[2]? = none)
    (hcmd : cmd = pyOfString "decompress" ∨ cmd = pyOfString "compress" ∨
      cmd = pyOfString "adler32" ∨ cmd = pyOfString "ord" ∨
      cmd = pyOfString "chr" ∨ cmd = pyOfString "hex") :
    main args fs = .error .indexError := by
  rw [main_some_cmd _ _ _ h1]
  rcases hcmd with h | h | h | h | h | h <;> subst h
  · rw [if_pos rfl]; simp [runDecompress, h2]
  · rw [if_neg (by decide), if_pos rfl]; simp [runCompress, h2]
  · rw [if_neg (by decide), if_neg (by decide), if_pos rfl]; simp [runAdler32, h2]
  · rw [if_neg (by decide), if_neg (by decide), if_neg (by decide), if_pos rfl]
    simp [runOrd, h2]
  · rw [if_neg (by decide), if_neg (by decide), if_neg (by decide), if_neg (by decide),
      if_pos rfl]
    simp [runChr, h2]
  · rw [if_neg (by decide), if_neg (by decide), if_neg (by decide), if_neg (by decide),
      if_neg (by decide), if_pos rfl]
    simp [runHex, h2]

/-- Witness for C10: `ord` with no operand raises `IndexError`. -/
theorem recognized_command_missing_operand_witness :
    main [pyOfString "helpy.py", pyOfString "ord"] [] = .error .indexError :=
  recognized_command_missing_operand _ _ (pyOfString "ord")
    (by simp only [List.getElem?_cons_succ, List.getElem?_cons_zero])
    (by simp only [List.getElem?_cons_succ]; rfl)
    (by decide)

/-- Claim C8: the `ord` command raises `IndexError` on an empty
`argument[2]` (the spec's `InputError`), and on a non-empty string it
prints the code point of the first character as a decimal integer. -/
theorem ord_empty_fails_nonempty_first (a0 : PyStr) (fs : FS) :
    main [a0, pyOfString "ord", []] fs = .error .indexError ∧
    ∀ (c : Nat) (rest : PyStr),
      main [a0, pyOfString "ord", c :: rest] fs = .ok ⟨fs, [.intVal (c : Int)]⟩ := by
  constructor
  · rw [main_cmd_ord]
    simp [runOrd]
  · intro c rest
    rw [main_cmd_ord]
    simp [runOrd]

/-- Claim C9: the `adler32` command's output depends only on the input
string (not on the rest of the argument list or the file system), and
on the empty string it prints the library-defined initial checksum 1. -/
theorem adler32_deterministic_and_empty (s a0 b0 : PyStr) (fs gs : FS) :
    (main [a0, pyOfString "adler32", s] fs).map RunResult.stdout
        = (main [b0, pyOfString "adler32", s] gs).map RunResult.stdout ∧
    main [a0, pyOfString "adler32", []] fs = .ok ⟨fs, [.intVal 1]⟩ := by
  constructor
  · rw [main_cmd_adler32, main_cmd_adler32]
    simp only [runAdler32, List.getElem?_cons_succ, List.getElem?_cons_zero]
    cases encodeCharmap s <;> rfl
  · rw [main_cmd_adler32]
    simp [runAdler32]
    rfl

/-- Claim C5: the `adler32` command fails with an encoding error
exactly when the argument has a character above code point 255;
otherwise each character becomes one byte of the same value (the
model's `encodeCharmap` returns the code points unchanged) and the
Adler-32 checksum of those bytes is printed as an integer. -/
theorem adler32_charmap_encoding (s a0 : PyStr) (fs : FS) :
    (main [a0, pyOfString "adler32", s] fs = .error .unicodeEncodeError ↔
      ∃ c ∈ s, 255 < c) ∧
    ((∀ c ∈ s, c < 256) →
      main [a0, pyOfString "adler32", s] fs = .ok ⟨fs, [.intVal (adler32 s)]⟩) := by
  rw [main_cmd_adler32]
  simp only [runAdler32, List.getElem?_cons_succ, List.getElem?_cons_zero]
  unfold encodeCharmap
  by_cases h : s.all (fun c => decide (c < 256))
  · rw [if_pos h]
    simp only [List.all_eq_true, decide_eq_true_eq] at h
    constructor
    · constructor
      · intro hcontra
        exact absurd hcontra (by simp)
      · intro ⟨c, hc, hgt⟩
        exact absurd (h c hc) (by omega)
    · intro _
      rfl
  · rw [if_neg h]
    simp only [List.all_eq_true, decide_eq_true_eq] at h
    push_neg at h
    obtain ⟨c, hc, hge⟩ := h
    constructor
    · constructor
      · intro _
        exact ⟨c, hc, by omega⟩
      · intro _
        rfl
    · intro hall
      exact absurd (hall c hc) (by omega)

/-- Witness for C5: `adler32 hello` succeeds and prints the checksum of
the latin-1 bytes of `hello`. -/
theorem adler32_charmap_encoding_witness :
    main [pyOfString "helpy.py", pyOfString "adler32", pyOfString "hello"] []
      = .ok ⟨[], [.intVal (adler32 (pyOfString "hello"))]⟩ :=
  (adler32_charmap_encoding (pyOfString "hello") (pyOfString "helpy.py") []).2 (by decide)

/-- Claim C7: the `chr` command fails with the `int` parse error on
every `argument[2]` that is not a valid integer literal, and with the
`chr` range error on every parsed integer outside `range(0x110000)`,
in particular on every negative integer. -/
theorem chr_parse_and_range_errors (s a0 : PyStr) (fs : FS) :
    (pyInt s = none → main [a0, pyOfString "chr", s] fs = .error .valueErrorInt) ∧
    (∀ n : Int, pyInt s = some n → n < 0 ∨ 1114112 ≤ n →
      main [a0, pyOfString "chr", s] fs = .error .valueErrorChr) := by
  rw [main_cmd_chr]
  constructor
  · intro h
    simp [runChr, h]
  · intro n hn hrange
    simp only [runChr, List.getElem?_cons_succ, List.getElem?_cons_zero, hn]
    unfold pyChr
    rw [if_neg (by omega)]

/-- Witness for C7: `chr abc` fails with the parse error and `chr -1`
fails with the range error. -/
theorem chr_parse_and_range_errors_witness :
    main [pyOfString "helpy.py", pyOfString "chr", pyOfString "abc"] []
        = .error .valueErrorInt ∧
    main [pyOfString "helpy.py", pyOfString "chr", pyOfString "-1"] []
        = .error .valueErrorChr :=
  ⟨(chr_parse_and_range_errors (pyOfString "abc") (pyOfString "helpy.py") []).1 (by decide),
   (chr_parse_and_range_errors (pyOfString "-1") (pyOfString "helpy.py") []).2 (-1)
     (by decide) (by omega)⟩

/-! Lemmas about decimal printing and `int` parsing, used for the
`ord`/`chr` round trip. -/

theorem decDigitsAux_append (fuel : Nat) :
    ∀ (n : Nat) (acc : List Nat),
      decDigitsAux fuel n acc = decDigitsAux fuel n [] ++ acc := by
  induction fuel with
  | zero => intro n acc; rfl
  | succ m ih =>
    intro n acc
    by_cases h : n < 10
    · simp [decDigitsAux, h]
    · simp only [decDigitsAux, if_neg h]
      rw [ih (n / 10) ((48 + n % 10) :: acc), ih (n / 10) [48 + n % 10]]
      simp

theorem decDigitsAux_all_digits (fuel : Nat) :
    ∀ (n : Nat) (acc : List Nat), n ≤ fuel →
      (∀ c ∈ acc, isDigit c = true) →
      ∀ c ∈ decDigitsAux fuel n acc, isDigit c = true := by
  induction fuel with
  | zero =>
    intro n acc hn hacc c hc
    have hn0 : n = 0 := by omega
    subst hn0
    simp only [decDigitsAux] at hc
    rw [List.mem_cons] at hc
    rcases hc with hc | hc
    · simp [isDigit, hc]
    · exact hacc c hc
  | succ m ih =>
    intro n acc hn hacc c hc
    by_cases h : n < 10
    · simp only [decDigitsAux, if_pos h] at hc
      rw [List.mem_cons] at hc
      rcases hc with hc | hc
      · simp only [hc, isDigit]
        simp
        omega
      · exact hacc c hc
    · simp only [decDigitsAux, if_neg h] at hc
      refine ih (n / 10) ((48 + n % 10) :: acc) (by omega) ?_ c hc
      intro d hd
      rw [List.mem_cons] at hd
      rcases hd with hd | hd
      · simp only [hd, isDigit]
        simp
        omega
      · exact hacc d hd

theorem decDigitsAux_ne_nil (fuel : Nat) :
    ∀ (n : Nat) (acc : List Nat), decDigitsAux fuel n acc ≠ [] := by
  induction fuel with
  | zero => intro n acc; simp [decDigitsAux]
  | succ m ih =>
    intro n acc
    by_cases h : n < 10
    · simp [decDigitsAux, h]
    · simp only [decDigitsAux, if_neg h]
      exact ih (n / 10) ((48 + n % 10) :: acc)

theorem parseDigits_of_all_digits :
    ∀ (l : List Nat) (acc : Nat), (∀ c ∈ l, isDigit c = true) →
      parseDigits l acc = some (l.foldl (fun a c => a * 10 + (c - 48)) acc) := by
  intro l
  induction l with
  | nil => intro acc _; rfl
  | cons c rest ih =>
    intro acc h
    have hc : isDigit c = true := h c (by simp)
    cases rest with
    | nil => simp [parseDigits, hc]
    | cons d rest2 =>
      simp only [parseDigits, if_pos hc, List.foldl_cons]
      exact ih (acc * 10 + (c - 48)) (fun e he => h e (by simp [he]))

theorem decDigitsAux_foldl (fuel : Nat) :
    ∀ (n : Nat) (acc : Nat), n ≤ fuel →
      List.foldl (fun a c => a * 10 + (c - 48)) acc (decDigitsAux fuel n [])
        = acc * 10 ^ (decDigitsAux fuel n []).length + n := by
  induction fuel with
  | zero =>
    intro n acc hn
    have hn0 : n = 0 := by omega
    subst hn0
    simp [decDigitsAux]
  | succ m ih =>
    intro n acc hn
    by_cases h : n < 10
    · simp only [decDigitsAux, if_pos h, List.foldl_cons, List.foldl_nil, List.length_cons,
        List.length_nil]
      simp
    · simp only [decDigitsAux, if_neg h]
      rw [decDigitsAux_append m (n / 10) [48 + n % 10]]
      rw [List.foldl_append]
      rw [ih (n / 10) acc (by omega)]
      simp only [List.foldl_cons, List.foldl_nil, List.length_append, List.length_cons,
        List.length_nil]
      have hdm : n / 10 * 10 + n % 10 = n := by omega
      have hd48 : 48 + n % 10 - 48 = n % 10 := by omega
      rw [hd48]
      calc (acc * 10 ^ (decDigitsAux m (n / 10) []).length + n / 10) * 10 + n % 10
          = acc * (10 ^ (decDigitsAux m (n / 10) []).length * 10) + (n / 10 * 10 + n % 10) := by
            ring
        _ = acc * 10 ^ ((decDigitsAux m (n / 10) []).length + (0 + 1)) + n := by
            rw [hdm, pow_succ]

theorem isDigit_not_space (c : Nat) (h : isDigit c = true) : isPySpace c = false := by
  simp only [isDigit, Bool.and_eq_true, decide_eq_true_eq] at h
  simp only [isPySpace]
  simp
  omega

theorem dropWhile_of_head_false (l : List Nat) (h : ∀ c ∈ l, isPySpace c = false) :
    l.dropWhile isPySpace = l := by
  cases l with
  | nil => rfl
  | cons c rest =>
    simp [List.dropWhile, h c (by simp)]

theorem pyStrip_of_all_digits (l : List Nat) (h : ∀ c ∈ l, isDigit c = true) :
    pyStrip l = l := by
  unfold pyStrip
  rw [dropWhile_of_head_false l (fun c hc => isDigit_not_space c (h c hc))]
  rw [dropWhile_of_head_false l.reverse
    (fun c hc => isDigit_not_space c (h c (List.mem_reverse.mp hc)))]
  exact List.reverse_reverse l

/-- Parsing back the decimal rendering of a natural number recovers the
number: `int(str(n)) == n` for the model. -/
theorem pyInt_natDecDigits (n : Nat) : pyInt (natDecDigits n) = some (n : Int) := by
  have hdig : ∀ c ∈ natDecDigits n, isDigit c = true :=
    decDigitsAux_all_digits n n [] (le_refl n) (by simp)
  unfold pyInt
  rw [pyStrip_of_all_digits _ hdig]
  cases hne : natDecDigits n with
  | nil => exact absurd hne (decDigitsAux_ne_nil n n [])
  | cons d ds =>
    have hd : isDigit d = true := hdig d (by rw [hne]; simp)
    have hd48 : 48 ≤ d ∧ d ≤ 57 := by
      simp only [isDigit, Bool.and_eq_true, decide_eq_true_eq] at hd
      exact hd
    have hfold : List.foldl (fun a c => a * 10 + (c - 48)) 0 (natDecDigits n) = n := by
      have := decDigitsAux_foldl n n 0 (le_refl n)
      simpa [natDecDigits] using this
    rw [hne] at hfold
    simp only [List.foldl_cons, Nat.zero_mul, Nat.zero_add] at hfold
    simp only [pyIntSigned, if_neg (by omega : ¬ d = 45), if_neg (by omega : ¬ d = 43),
      pyIntBody, if_pos hd]
    rw [parseDigits_of_all_digits ds (d - 48) (fun c hc => hdig c (by rw [hne]; simp [hc]))]
    rw [hfold]
    rfl

theorem runChr_eval (a0 : PyStr) (s : PyStr) (fs : FS) (n : Int) (ch : PyStr)
    (hp : pyInt s = some n) (hch : pyChr n = some ch) :
    runChr [a0, pyOfString "chr", s] fs = .ok ⟨fs, [.strVal ch]⟩ := by
  simp [runChr, hp, hch]

/-- Claim C3: `ord` on a one-character string prints its code point;
`chr` on the decimal rendering of that code point prints the
character back; concretely `chr 65` prints `A` and `ord A` prints
`65`. `natDecDigits c` is the decimal text Python's `print` produces
for the integer printed by `ord`. -/
theorem ord_chr_roundtrip (c : Nat) (hc : c < 1114112) (a0 : PyStr) (fs : FS) :
    main [a0, pyOfString "ord", [c]] fs = .ok ⟨fs, [.intVal (c : Int)]⟩ ∧
    main [a0, pyOfString "chr", natDecDigits c] fs = .ok ⟨fs, [.strVal [c]]⟩ ∧
    main [a0, pyOfString "chr", pyOfString "65"] fs = .ok ⟨fs, [.strVal (pyOfString "A")]⟩ ∧
    main [a0, pyOfString "ord", pyOfString "A"] fs = .ok ⟨fs, [.intVal 65]⟩ := by
  refine ⟨?_, ?_, ?_, ?_⟩
  · rw [main_cmd_ord]
    simp [runOrd]
  · rw [main_cmd_chr]
    have hchr : pyChr (c : Int) = some [c] := by
      unfold pyChr
      rw [if_pos ⟨Int.ofNat_nonneg c, by exact_mod_cast hc⟩]
      simp
    exact runChr_eval a0 (natDecDigits c) fs (c : Int) [c] (pyInt_natDecDigits c) hchr
  · rw [main_cmd_chr]
    have h65 : pyInt (pyOfString "65") = some 65 := by decide
    simp only [runChr, List.getElem?_cons_succ, List.getElem?_cons_zero, h65]
    rfl
  · rw [main_cmd_ord]
    simp [runOrd, pyOfString]

/-- Witness for C3, at the code point of `A`. -/
theorem ord_chr_roundtrip_witness :
    main [pyOfString "helpy.py", pyOfString "ord", [65]] []
        = .ok ⟨[], [.intVal ((65 : Nat) : Int)]⟩ ∧
    main [pyOfString "helpy.py", pyOfString "chr", natDecDigits 65] []
        = .ok ⟨[], [.strVal [65]]⟩ ∧
    main [pyOfString "helpy.py", pyOfString "chr", pyOfString "65"] []
        = .ok ⟨[], [.strVal (pyOfString "A")]⟩ ∧
    main [pyOfString "helpy.py", pyOfString "ord", pyOfString "A"] []
        = .ok ⟨[], [.intVal 65]⟩ :=
  ord_chr_roundtrip 65 (by omega) (pyOfString "helpy.py") []

/-! Lemmas about hexadecimal formatting, for the `hex` command. -/

theorem isPrefixOf_append (l t : List Nat) : l.isPrefixOf (l ++ t) = true := by
  induction l with
  | nil => simp [List.isPrefixOf]
  | cons c rest ih => simp [List.isPrefixOf, ih]

theorem hexDigitChar_range (m : Nat) (h : m < 16) :
    (48 ≤ hexDigitChar m ∧ hexDigitChar m ≤ 57) ∨
      (97 ≤ hexDigitChar m ∧ hexDigitChar m ≤ 102) := by
  unfold hexDigitChar
  split <;> omega

theorem hexDigitsAux_range (fuel : Nat) :
    ∀ (n : Nat) (acc : List Nat), n ≤ fuel →
      (∀ c ∈ acc, (48 ≤ c ∧ c ≤ 57) ∨ (97 ≤ c ∧ c ≤ 102)) →
      ∀ c ∈ hexDigitsAux fuel n acc, (48 ≤ c ∧ c ≤ 57) ∨ (97 ≤ c ∧ c ≤ 102) := by
  induction fuel with
  | zero =>
    intro n acc hn hacc c hc
    have hn0 : n = 0 := by omega
    subst hn0
    simp only [hexDigitsAux] at hc
    rw [List.mem_cons] at hc
    rcases hc with hc | hc
    · subst hc
      exact hexDigitChar_range 0 (by omega)
    · exact hacc c hc
  | succ m ih =>
    intro n acc hn hacc c hc
    by_cases h : n < 16
    · simp only [hexDigitsAux, if_pos h] at hc
      rw [List.mem_cons] at hc
      rcases hc with hc | hc
      · subst hc
        exact hexDigitChar_range n h
      · exact hacc c hc
    · simp only [hexDigitsAux, if_neg h] at hc
      refine ih (n / 16) (hexDigitChar (n % 16) :: acc) (by omega) ?_ c hc
      intro d hd
      rw [List.mem_cons] at hd
      rcases hd with hd | hd
      · subst hd
        exact hexDigitChar_range (n % 16) (by omega)
      · exact hacc d hd

/-- Counterexample to C4 as stated: `-1` parses as a base-10 integer,
but the printed string `-0x1` does not carry a leading `0x`: the `0x`
comes after the sign. -/
theorem hex_negative_not_0x_led :
    main [pyOfString "helpy.py", pyOfString "hex", pyOfString "-1"] []
        = .ok ⟨[], [.strVal (pyOfString "-0x1")]⟩ ∧
    (pyOfString "0x").isPrefixOf (pyOfString "-0x1") = false := by
  constructor
  · rfl
  · rfl

/-- Claim C4 (amended): when `argument[2]` parses as an integer `n`,
the `hex` command prints `hex(n)`: for `n ≥ 0` the string starts with
`0x`, for `n < 0` it starts with `-0x` (sign before the prefix), and
in both cases all remaining characters are lowercase hexadecimal
digits; the output is a function of `n` alone, `hex(0)` is `0x0` and
`hex(255)` is `0xff`. -/
theorem hex_command_formats (s a0 : PyStr) (fs : FS) (n : Int) (hp : pyInt s = some n) :
    main [a0, pyOfString "hex", s] fs = .ok ⟨fs, [.strVal (pyHex n)]⟩ ∧
    (0 ≤ n → (pyOfString "0x").isPrefixOf (pyHex n) = true) ∧
    (n < 0 → (pyOfString "-0x").isPrefixOf (pyHex n) = true) ∧
    (∀ c ∈ pyHex n, c = 45 ∨ c = 120 ∨ (48 ≤ c ∧ c ≤ 57) ∨ (97 ≤ c ∧ c ≤ 102)) ∧
    pyHex 0 = pyOfString "0x0" ∧ pyHex 255 = pyOfString "0xff" := by
  refine ⟨?_, ?_, ?_, ?_, by decide, by decide⟩
  · rw [main_cmd_hex]
    simp [runHex, hp]
  · intro hn
    unfold pyHex
    rw [if_neg (by omega)]
    exact isPrefixOf_append _ _
  · intro hn
    unfold pyHex
    rw [if_pos hn]
    exact isPrefixOf_append _ _
  · intro c hc
    unfold pyHex at hc
    have hdig : c ∈ natHexDigits n.natAbs →
        c = 45 ∨ c = 120 ∨ (48 ≤ c ∧ c ≤ 57) ∨ (97 ≤ c ∧ c ≤ 102) := by
      intro hmem
      have := hexDigitsAux_range n.natAbs n.natAbs [] (le_refl _) (by simp) c hmem
      tauto
    split at hc <;> rw [List.mem_append] at hc <;> rcases hc with hc | hc
    · rw [show pyOfString "-0x" = [45, 48, 120] from by decide] at hc
      simp at hc
      omega
    · exact hdig hc
    · rw [show pyOfString "0x" = [48, 120] from by decide] at hc
      simp at hc
      omega
    · exact hdig hc

/-- Witness for the amended C4, at input `255`. -/
theorem hex_command_formats_witness :
    main [pyOfString "helpy.py", pyOfString "hex", pyOfString "255"] []
        = .ok ⟨[], [.strVal (pyHex 255)]⟩ ∧
    (0 ≤ (255 : Int) → (pyOfString "0x").isPrefixOf (pyHex 255) = true) ∧
    ((255 : Int) < 0 → (pyOfString "-0x").isPrefixOf (pyHex 255) = true) ∧
    (∀ c ∈ pyHex 255, c = 45 ∨ c = 120 ∨ (48 ≤ c ∧ c ≤ 57) ∨ (97 ≤ c ∧ c ≤ 102)) ∧
    pyHex 0 = pyOfString "0x0" ∧ pyHex 255 = pyOfString "0xff" :=
  hex_command_formats (pyOfString "255") (pyOfString "helpy.py") [] 255 (by decide)

/-! Round trip of the modelled zlib compression. -/

theorem inflateStored_final (m : Nat) (data t : Bytes) :
    inflateStored (m + 1)
      (1 :: data.length % 256 :: data.length / 256 ::
        (65535 - data.length) % 256 :: (65535 - data.length) / 256 :: (data ++ t))
      = some (data, t) := by
  have hlen : data.length % 256 + 256 * (data.length / 256) = data.length :=
    Nat.mod_add_div _ _
  have hnlen : (65535 - data.length) % 256 + 256 * ((65535 - data.length) / 256)
      = 65535 - data.length := Nat.mod_add_div _ _
  simp only [inflateStored]
  rw [hlen, hnlen]
  rw [if_neg (by omega)]
  rw [if_pos (by simp [List.length_append])]
  simp [List.take_left, List.drop_left]

theorem inflate_deflateAux (dfuel : Nat) :
    ∀ (data t : Bytes) (ifuel : Nat), data.length ≤ dfuel + 65535 → data.length < ifuel →
      inflateStored ifuel (deflateStoredAux dfuel data ++ t) = some (data, t) := by
  induction dfuel with
  | zero =>
    intro data t ifuel hd hi
    cases ifuel with
    | zero => omega
    | succ m =>
      simp only [deflateStoredAux, List.cons_append]
      exact inflateStored_final m data t
  | succ m ih =>
    intro data t ifuel hd hi
    by_cases h65 : data.length ≤ 65535
    · cases ifuel with
      | zero => omega
      | succ k =>
        simp only [deflateStoredAux, if_pos h65, List.cons_append]
        exact inflateStored_final k data t
    · cases ifuel with
      | zero => omega
      | succ k =>
        simp only [deflateStoredAux, if_neg h65, List.cons_append, List.append_assoc]
        simp only [inflateStored]
        rw [if_neg (by omega)]
        have htake : (data.take 65535).length = 65535 := by
          rw [List.length_take]
          omega
        have hdlen : (data.take 65535 ++ (deflateStoredAux m (data.drop 65535) ++ t)).length
            = 65535 + (deflateStoredAux m (data.drop 65535) ++ t).length := by
          rw [List.length_append, htake]
        rw [if_pos (by omega)]
        rw [if_pos trivial]
        have hdrop : (data.take 65535 ++ (deflateStoredAux m (data.drop 65535) ++ t)).drop
            (255 + 256 * 255) = deflateStoredAux m (data.drop 65535) ++ t :=
          List.drop_left' (by omega)
        have htakeEq : (data.take 65535 ++ (deflateStoredAux m (data.drop 65535) ++ t)).take
            (255 + 256 * 255) = data.take 65535 :=
          List.take_left' (by omega)
        rw [hdrop, htakeEq]
        rw [ih (data.drop 65535) t k (by rw [List.length_drop]; omega)
          (by rw [List.length_drop]; omega)]
        rw [if_neg (by omega)]
        simp [List.take_append_drop]

theorem deflateStoredAux_length (dfuel : Nat) :
    ∀ data : Bytes, data.length + 5 ≤ (deflateStoredAux dfuel data).length := by
  induction dfuel with
  | zero =>
    intro data
    simp [deflateStoredAux]
  | succ m ih =>
    intro data
    by_cases h : data.length ≤ 65535
    · simp [deflateStoredAux, h]
    · have := ih (data.drop 65535)
      rw [List.length_drop] at this
      simp only [deflateStoredAux, if_neg h, List.length_append, List.length_cons,
        List.length_take]
      omega

/-- The model's zlib round trip: decompressing a compressed buffer
recovers it exactly. -/
theorem zlibDecompress_zlibCompress (data : Bytes) :
    zlibDecompress (zlibCompress data) = some data := by
  have hinfl : inflateStored
      ((deflateStoredAux data.length data).length + (adler32BytesBE data).length)
      (deflateStoredAux data.length data ++ adler32BytesBE data)
      = some (data, adler32BytesBE data) :=
    inflate_deflateAux data.length data (adler32BytesBE data) _ (by omega)
      (by have := deflateStoredAux_length data.length data; omega)
  simp [zlibCompress, zlibDecompress, deflateStored, hinfl]

/-- Claim C2: compressing the contents of a file to an output path and
then decompressing that output path prints exactly the original byte
buffer. -/
theorem compress_then_decompress_roundtrip (a0 b0 inPath outPath : PyStr) (B : Bytes)
    (fs : FS) (hin : FS.read fs inPath = some B) :
    main [a0, pyOfString "compress", inPath, outPath] fs
        = .ok ⟨FS.write fs outPath (zlibCompress B), []⟩ ∧
    main [b0, pyOfString "decompress", outPath] (FS.write fs outPath (zlibCompress B))
        = .ok ⟨FS.write fs outPath (zlibCompress B), [.bytesObj B]⟩ := by
  constructor
  · rw [main_cmd_compress]
    simp [runCompress, hin]
  · rw [main_cmd_decompress]
    have hread : FS.read (FS.write fs outPath (zlibCompress B)) outPath
        = some (zlibCompress B) := by
      simp [FS.read, FS.write]
    simp [runDecompress, hread, zlibDecompress_zlibCompress]

/-- Witness for C2 on the byte buffer `hello`. -/
theorem compress_then_decompress_roundtrip_witness :
    main [pyOfString "helpy.py", pyOfString "compress", pyOfString "in.bin",
        pyOfString "out.bin"] [(pyOfString "in.bin", pyOfString "hello")]
      = .ok ⟨FS.write [(pyOfString "in.bin", pyOfString "hello")] (pyOfString "out.bin")
          (zlibCompress (pyOfString "hello")), []⟩ ∧
    main [pyOfString "helpy.py", pyOfString "decompress", pyOfString "out.bin"]
        (FS.write [(pyOfString "in.bin", pyOfString "hello")] (pyOfString "out.bin")
          (zlibCompress (pyOfString "hello")))
      = .ok ⟨FS.write [(pyOfString "in.bin", pyOfString "hello")] (pyOfString "out.bin")
          (zlibCompress (pyOfString "hello")), [.bytesObj (pyOfString "hello")]⟩ :=
  compress_then_decompress_roundtrip (pyOfString "helpy.py") (pyOfString "helpy.py")
    (pyOfString "in.bin") (pyOfString "out.bin") (pyOfString "hello")
    [(pyOfString "in.bin", pyOfString "hello")] (by decide)

/-- Claim C6: with an output path present, `compress` writes the
compressed bytes to that path (creating or replacing it, so that
reading it back yields those bytes) and prints nothing; without one,
it prints the compressed buffer as a bytes object and leaves the file
system unchanged. -/
theorem compress_output_routing (a0 inPath : PyStr) (B : Bytes) (fs : FS)
    (hin : FS.read fs inPath = some B) :
    (∀ outPath : PyStr,
      main [a0, pyOfString "compress", inPath, outPath] fs
          = .ok ⟨FS.write fs outPath (zlibCompress B), []⟩ ∧
      FS.read (FS.write fs outPath (zlibCompress B)) outPath = some (zlibCompress B)) ∧
    main [a0, pyOfString "compress", inPath] fs = .ok ⟨fs, [.bytesObj (zlibCompress B)]⟩ := by
  constructor
  · intro outPath
    constructor
    · rw [main_cmd_compress]
      simp [runCompress, hin]
    · simp [FS.read, FS.write]
  · rw [main_cmd_compress]
    simp [runCompress, hin]

/-- Witness for C6 on the byte buffer `hello`. -/
theorem compress_output_routing_witness :
    main [pyOfString "helpy.py", pyOfString "compress", pyOfString "in.bin",
        pyOfString "out.bin"] [(pyOfString "in.bin", pyOfString "hello")]
      = .ok ⟨FS.write [(pyOfString "in.bin", pyOfString "hello")] (pyOfString "out.bin")
          (zlibCompress (pyOfString "hello")), []⟩ ∧
    main [pyOfString "helpy.py", pyOfString "compress", pyOfString "in.bin"]
        [(pyOfString "in.bin", pyOfString "hello")]
      = .ok ⟨[(pyOfString "in.bin", pyOfString "hello")],
          [.bytesObj (zlibCompress (pyOfString "hello"))]⟩ :=
  have h := compress_output_routing (pyOfString "helpy.py") (pyOfString "in.bin")
    (pyOfString "hello") [(pyOfString "in.bin", pyOfString "hello")] (by decide)
  ⟨(h.1 (pyOfString "out.bin")).1, h.2⟩

example : adler32 (pyOfString "hello") = 103547413 := by decide

example : adler32 [] = 1 := by decide

example : pyInt (pyOfString " -42 ") = some (-42) := by decide

example : pyInt (pyOfString "1_000") = some 1000 := by decide

example : pyInt (pyOfString "1__0") = none := by decide

example : pyInt (pyOfString "abc") = none := by decide

example : pyHex 255 = pyOfString "0xff" := by decide

example : pyHex 0 = pyOfString "0x0" := by decide

example : pyHex (-255) = pyOfString "-0xff" := by decide

example : zlibDecompress (zlibCompress (pyOfString "hello")) = some (pyOfString "hello") := by decide

end Helpy
